import Mathlib

/-!
# Verification of django-hatchway's parameter-source resolution and binding engine

This file gives a shallow embedding, in Lean 4, of the request-binding core of
the `hatchway` library (`hatchway/view.py`, `hatchway/permissions.py`,
`hatchway/schema.py`) and proves properties of it.

Python values flowing through the binder (query strings, JSON bodies, path
captures) are modelled by the `Value` type below; Python `dict`s are modelled
as association lists keyed by `String`, where update replaces the first
occurrence of a key (matching `dict` semantics when keys are unique, which
they are for Python dicts).  Python's `None` is `Value.null` — note that in
the source the "absent" marker and JSON `null` are literally the same Python
object, and the embedding preserves that.
-/

set_option autoImplicit false

namespace Hatchway

/-- A Python/JSON-like value as it flows through the binder. `orm` stands for
a Django `Model` instance, visible to the embedding only through attribute
lookup by name (used by `Schema.from_orm` / `convert_from_orm`). -/
inductive Value where
  | null
  | bool (b : Bool)
  | num (n : Int)
  | str (s : String)
  | list (xs : List Value)
  | obj (kvs : List (String × Value))
  | orm (attrs : List (String × Value))

/-- Modelled from the spec: `hatchway/constants.py` (not under `src/`) defines
the `InputSource` enumeration; its members are fixed by spec section 3
("Source Kind") and by every use in `hatchway/view.py`. -/
inductive InputSource where
  | path
  | query
  | query_list
  | body
  | body_direct
  | file
  | query_and_body_direct
deriving DecidableEq, Repr

/-- Modelled from the spec: the six source-signifier wrappers recognised by
`hatchway/types.py` (not under `src/`), spec section 4.1. -/
inductive Signifier where
  | queryS
  | bodyS
  | bodyDirectS
  | pathS
  | fileS
  | queryOrBodyS
  | pathOrQueryS
deriving DecidableEq, Repr

/-- A parameter's declared type annotation, as far as source classification
needs to see it: an optional signifier wrapper around an inner type which is
a Schema model subclass, a collection type, `django.core.files.File`, an
`Optional[...]`, the request object itself, or some other scalar type. -/
inductive Ty where
  | signified (s : Signifier) (t : Ty)
  | model (name : String)
  | collection (t : Ty)
  | file
  | opt (t : Ty)
  | httpRequest
  | scalar (name : String)
deriving DecidableEq, Repr

/-- Modelled from the spec: `extract_signifier` from `hatchway/types.py`
(section 4.1: "given a type annotation, return
(signifier_kind_or_none, unwrapped_type)"). -/
def extract_signifier : Ty → Option Signifier × Ty
  | .signified s t => (some s, t)
  | t => (none, t)

/-- Modelled from the spec: `is_model_subclass` from `hatchway/types.py`
(true exactly for structured record (Schema) types). -/
def is_model_subclass : Ty → Bool
  | .model _ => true
  | _ => false

/-- Modelled from the spec: `is_optional` from `hatchway/types.py`
(section 4.1: detects a two-armed union with the absence type and returns
the non-absence arm). -/
def is_optional : Ty → Bool × Option Ty
  | .opt t => (true, some t)
  | _ => (false, none)

/-- Whether a type is one of the bare collection types
(`list`/`set`/`tuple`/`frozenset`, including parameterized forms). -/
def isCollectionType : Ty → Bool
  | .collection _ => true
  | _ => false

/-- `ApiView.sources_for_input` (`hatchway/view.py` lines 164-203): given a
type that can appear as a request parameter type, the sources it can come
from and its resolved type.  `BodyDirect` on a non-Schema type raises
`ValueError`, modelled by `Except.error`. -/
def sources_for_input (input_type : Ty) : Except String (List InputSource × Ty) :=
  let sig := extract_signifier input_type
  let t := sig.2
  if sig.1 = some .queryS then
    .ok ([InputSource.query], t)
  else if sig.1 = some .bodyS then
    .ok ([InputSource.body], t)
  else if sig.1 = some .bodyDirectS then
    if ¬ is_model_subclass t then
      .error "You cannot use BodyDirect on something that is not a Schema model"
    else
      .ok ([InputSource.body_direct], t)
  else if sig.1 = some .pathS then
    .ok ([InputSource.path], t)
  else if sig.1 = some .fileS ∨ t = .file ∨ (is_optional t).2 = some .file then
    .ok ([InputSource.file], t)
  else if sig.1 = some .queryOrBodyS then
    .ok ([InputSource.query, InputSource.body], t)
  else if sig.1 = some .pathOrQueryS then
    .ok ([InputSource.path, InputSource.query], t)
  else if is_model_subclass t then
    .ok ([InputSource.body], t)
  else if isCollectionType t then
    .ok ([InputSource.query_list], t)
  else
    .ok ([InputSource.path, InputSource.query], t)

/-- The classification pass of `ApiView.compile` (`hatchway/view.py` lines
248-268): for each declared input, skip parameters typed as the request
object itself and record `(name, sources, resolved type)` from
`sources_for_input`.  The `acceptable_input` guard of the source (from the
missing `hatchway/types.py`) rejects annotations outside the grammar of `Ty`,
so on this grammar it always passes. -/
def classifyParams : List (String × Ty) → Except String (List (String × List InputSource × Ty))
  | [] => .ok []
  | (name, ty) :: rest =>
    if ty = .httpRequest then
      classifyParams rest
    else
      match sources_for_input ty with
      | .error e => .error e
      | .ok (srcs, mt) =>
        match classifyParams rest with
        | .error e => .error e
        | .ok r => .ok ((name, srcs, mt) :: r)

/-- The running `last_body_type` variable of `ApiView.compile`: the resolved
type of the last parameter (in declaration order) having `body` among its
candidate sources. -/
def lastBodyType (params : List (String × List InputSource × Ty)) : Option Ty :=
  params.foldl
    (fun acc p => if InputSource.body ∈ p.2.1 then some p.2.2 else acc) none

/-- The single-body promotion step of `ApiView.compile` (`hatchway/view.py`
lines 269-281): when exactly one parameter pulls from the body and the last
body-eligible type is a Schema model, every body-eligible parameter's source
list drops `body` and appends `body_direct`; otherwise all source lists are
kept as classified. -/
def promoteBody (params : List (String × List InputSource × Ty)) :
    List (String × List InputSource) :=
  let amount := (params.filter fun p => decide (InputSource.body ∈ p.2.1)).length
  let lbt := lastBodyType params
  if amount = 1 then
    params.map fun p =>
      if InputSource.body ∈ p.2.1 ∧
          (match lbt with | some t => is_model_subclass t | none => false) = true then
        (p.1, p.2.1.filter (fun x => x ≠ InputSource.body) ++ [InputSource.body_direct])
      else
        (p.1, p.2.1)
  else
    params.map fun p => (p.1, p.2.1)

/-- The compiled handler schema (`ApiView.compile` output state): the final
parameter-source map, the set of file parameters, and the field names of the
input model (`model_dict` keys, i.e. all non-file parameters). -/
structure Compiled where
  sources : List (String × List InputSource)
  input_files : List String
  input_fields : List String

/-- `ApiView.compile` (`hatchway/view.py` lines 242-297), up to the
construction of the msgspec struct types themselves (which only mirror
`input_fields` as optional-of-themselves). -/
def compile (input_types : List (String × Ty)) : Except String Compiled :=
  match classifyParams input_types with
  | .error e => .error e
  | .ok params =>
    .ok { sources := promoteBody params,
          input_files :=
            (params.filter fun p => decide (InputSource.file ∈ p.2.1)).map (·.1),
          input_fields :=
            (params.filter fun p => decide (InputSource.file ∉ p.2.1)).map (·.1) }

/-! ## Python dict operations on association lists -/

/-- `d[k]` lookup (first matching key; Python dicts have unique keys). -/
def lookupV (kvs : List (String × Value)) (k : String) : Option Value :=
  match kvs with
  | [] => none
  | (k', v) :: rest => if k' = k then some v else lookupV rest k

/-- `d[k] = v`: replace in place if the key exists, else append. -/
def setV (kvs : List (String × Value)) (k : String) (v : Value) :
    List (String × Value) :=
  match kvs with
  | [] => [(k, v)]
  | (k', v') :: rest => if k' = k then (k, v) :: rest else (k', v') :: setV rest k v

/-- `base.update(upd)`: assign every key of `upd` into `base`, in order. -/
def updateV (base upd : List (String × Value)) : List (String × Value) :=
  upd.foldl (fun acc kv => setV acc kv.1 kv.2) base

/-- `d.setdefault(k, default)`: the value now stored at `k`, and the
possibly-extended dict. -/
def setdefaultV (kvs : List (String × Value)) (k : String) (d : Value) :
    Value × List (String × Value) :=
  match lookupV kvs k with
  | some v => (v, kvs)
  | none => (d, kvs ++ [(k, d)])

def Value.isList : Value → Bool
  | .list _ => true
  | _ => false

def Value.isNull : Value → Bool
  | .null => true
  | _ => false

/-! ## `ApiView.get_values` (`hatchway/view.py` lines 205-240)

The string operations of `get_values` are modelled on the character list
underlying a `String` (`String.data`). -/

/-- Python's `c in key` for a one-character needle. -/
def pyIn (c : Char) (s : String) : Bool := s.data.contains c

/-- Python's `str.split(sep)` for a one-character separator, on character
lists: always non-empty, with empty pieces around adjacent separators. -/
def splitCharList (sep : Char) : List Char → List (List Char)
  | [] => [[]]
  | c :: rest =>
    let r := splitCharList sep rest
    if c = sep then
      [] :: r
    else
      match r with
      | [] => [[c]]
      | h :: t => (c :: h) :: t

/-- Python's `part.rstrip("]")`: drop every trailing `]`. -/
def rstripBrackets (s : String) : String :=
  String.mk ((s.data.reverse.dropWhile fun c => c = ']').reverse)

/-- The bracket-walking loop body of `get_values`: `lastKey` is the current
`last_key`, `parts` the remaining bracket parts, `container` the aliased
`target`.  Mutation of the walked sub-structure is mirrored by writing the
recursively-updated child back at its key.  A `target` that is not a dict
where one is needed (or not a dict/list at the final assignment) raises in
Python (badly formed keys, left TODO in the source); modelled as
`Except.error`. -/
def bracketInsert (value : Value) : String → List String → Value → Except String Value
  | lastKey, [], container =>
    match container with
    | .list xs =>
      match value with
      | .list vs => .ok (.list (xs ++ vs))
      | v => .ok (.list (xs ++ [v]))
    | .obj kvs => .ok (.obj (setV kvs lastKey value))
    | _ => .error "TypeError"
  | lastKey, part :: rest, container =>
    let p := rstripBrackets part
    match container with
    | .obj kvs =>
      if p.data.isEmpty then
        let sd := setdefaultV kvs lastKey (.list [])
        match bracketInsert value lastKey rest sd.1 with
        | .ok child => .ok (.obj (setV sd.2 lastKey child))
        | .error e => .error e
      else
        let sd := setdefaultV kvs lastKey (.obj [])
        match bracketInsert value p rest sd.1 with
        | .ok child => .ok (.obj (setV sd.2 lastKey child))
        | .error e => .error e
    | _ => .error "TypeError"

/-- One iteration of the `get_values` loop, for an entry `(key, value)` of
the ambient data: square-bracket expansion if the key calls for it,
otherwise a plain assignment `result[key] = value`. -/
def getValuesEntry (useSquareBrackets : Bool) (result : List (String × Value))
    (key : String) (value : Value) : Except String (List (String × Value)) :=
  if pyIn '[' key ∧ useSquareBrackets then
    match (splitCharList '[' key.data).map (fun cs => String.mk cs) with
    | [] => .ok (setV result key value)
    | k0 :: rest =>
      match bracketInsert value k0 rest (.obj result) with
      | .ok (.obj r) => .ok r
      | .ok _ => .error "unreachable: the top-level target is a dict"
      | .error e => .error e
  else
    .ok (setV result key value)

/-- `ApiView.get_values` on a plain `dict` (e.g. a parsed JSON object):
the `QueryDict` multi-value branch does not fire. -/
def get_values (data : List (String × Value)) (useSquareBrackets : Bool) :
    Except String (List (String × Value)) :=
  data.foldlM (fun result kv => getValuesEntry useSquareBrackets result kv.1 kv.2) []

/-- `ApiView.get_values` on a `QueryDict`, modelled as a multi-map: each key
carries its full `getlist`; a key with more than one value contributes the
list of all of them, a key with exactly one contributes that bare value (and
a degenerate empty `getlist` contributes `[]`, as `MultiValueDict.__getitem__`
returns). -/
def get_values_qd (data : List (String × List Value)) (useSquareBrackets : Bool) :
    Except String (List (String × Value)) :=
  data.foldlM
    (fun result kv =>
      match kv.2 with
      | [] => getValuesEntry useSquareBrackets result kv.1 (.list [])
      | [v] => getValuesEntry useSquareBrackets result kv.1 v
      | vs => getValuesEntry useSquareBrackets result kv.1 (.list vs)) []

/-- `hatchway/view.py` lines 354-355: a JSON request body is parsed and its
`get_values` flattening (with `use_square_brackets` left at its default of
`True`) is `dict.update`d into the body value map. -/
def mergeJsonBody (body_values jsonBody : List (String × Value)) :
    Except String (List (String × Value)) :=
  match get_values jsonBody true with
  | .ok kvs => .ok (updateV body_values kvs)
  | .error e => .error e

/-! ## Request-time binding (`ApiView.__call__`, `hatchway/view.py` lines 303-449) -/

/-- The four per-request value maps of `ApiView.__call__`: path-captured
keyword arguments, and the `get_values` flattenings of query, body and
files data. -/
structure RequestMaps where
  pathKwargs : List (String × Value)
  queryValues : List (String × Value)
  bodyValues : List (String × Value)
  filesValues : List (String × Value)

def containsKey (kvs : List (String × Value)) (k : String) : Bool :=
  (lookupV kvs k).isSome

/-- The inner source loop of `ApiView.__call__` (lines 357-391) for one
parameter: try each candidate source in order, bind from the first one whose
map contains the key and `break`; the `for`-`else` clause records `None`
(`Value.null`) when no source fires. -/
def resolveParam (m : RequestMaps) (name : String) : List InputSource → Value
  | [] => .null
  | s :: rest =>
    match s with
    | .path =>
      match lookupV m.pathKwargs name with
      | some v => v
      | none => resolveParam m name rest
    | .query =>
      match lookupV m.queryValues name with
      | some v => v
      | none => resolveParam m name rest
    | .query_list =>
      match lookupV m.queryValues name with
      | some v => if v.isList then v else .list [v]
      | none => resolveParam m name rest
    | .body =>
      match lookupV m.bodyValues name with
      | some v => v
      | none => resolveParam m name rest
    | .file =>
      match lookupV m.filesValues name with
      | some v => v
      | none => resolveParam m name rest
    | .body_direct => .obj m.bodyValues
    | .query_and_body_direct => .obj (updateV m.queryValues m.bodyValues)

/-- Whether a candidate source fires for a parameter: a membership test for
the keyed sources; the two direct sources always fire. -/
def sourceHits (m : RequestMaps) (name : String) : InputSource → Bool
  | .path => containsKey m.pathKwargs name
  | .query => containsKey m.queryValues name
  | .query_list => containsKey m.queryValues name
  | .body => containsKey m.bodyValues name
  | .file => containsKey m.filesValues name
  | .body_direct => true
  | .query_and_body_direct => true

/-- The value a firing source binds (the body of each `if name in ...`
branch of the source loop). -/
def sourceBind (m : RequestMaps) (name : String) : InputSource → Value
  | .path => (lookupV m.pathKwargs name).getD .null
  | .query => (lookupV m.queryValues name).getD .null
  | .query_list =>
    let v := (lookupV m.queryValues name).getD .null
    if v.isList then v else .list [v]
  | .body => (lookupV m.bodyValues name).getD .null
  | .file => (lookupV m.filesValues name).getD .null
  | .body_direct => .obj m.bodyValues
  | .query_and_body_direct => .obj (updateV m.queryValues m.bodyValues)

/-- The full `values` dict built by the source loop, one entry per parameter
of the compiled source map. -/
def buildValues (m : RequestMaps) (sources : List (String × List InputSource)) :
    List (String × Value) :=
  sources.map fun p => (p.1, resolveParam m p.1 p.2)

/-- `view_kwargs` construction (lines 411-419): keep the coerced struct
fields whose raw resolved value is present and not `None`, then assign every
file parameter from the files map (`None` when absent). -/
def computeKwargs (structFields values filesValues : List (String × Value))
    (inputFiles : List String) : List (String × Value) :=
  let base := structFields.filter fun p =>
    match lookupV values p.1 with
    | some v => ¬ v.isNull
    | none => false
  inputFiles.foldl (fun acc n => setV acc n ((lookupV filesValues n).getD .null)) base

/-- The data/status pair of an `ApiResponse` (`hatchway/http.py`). -/
structure ApiResponse where
  data : Value
  status : Nat

/-- The 400 response built when `msgspec.convert` raises a
`ValidationError` (lines 397-410). -/
def invalidInputResponse (error_msg : String) : ApiResponse :=
  { data := .obj
      [("error", .str "invalid_input"),
       ("error_details", .list
         [.obj [("loc", .list [.str "<unknown>"]),
                ("msg", .str error_msg),
                ("type", .str "value_error")]])],
    status := 400 }

/-! ## Permissions (`hatchway/permissions.py`) -/

/-- A Django user as far as `check_permissions` reads it: the
`is_authenticated` flag and the set of permissions `has_perm` grants. -/
structure User where
  is_authenticated : Bool
  perms : List String

def has_perm (u : User) (p : String) : Bool := u.perms.contains p

/-- `check_permissions` (`hatchway/permissions.py` lines 8-29): anonymous or
unauthenticated users fail with `authentication_required`; otherwise the
first missing permission fails with `permission_denied`. -/
def check_permissions (user : Option User) (permissions : List String) :
    Bool × Option String :=
  match user with
  | none => (false, some "authentication_required")
  | some u =>
    if ¬ u.is_authenticated then
      (false, some "authentication_required")
    else
      match permissions.find? (fun p => ¬ has_perm u p) with
      | some _ => (false, some "permission_denied")
      | none => (true, none)

/-- `require_authentication` (`hatchway/permissions.py` lines 32-45). -/
def require_authentication (user : Option User) : Bool × Option String :=
  match user with
  | none => (false, some "authentication_required")
  | some u =>
    if ¬ u.is_authenticated then (false, some "authentication_required")
    else (true, none)

/-- The permission branch of `ApiView.__call__` (lines 329-333): `none` when
the check passes (or no permissions are declared), otherwise the early
error response, with status 401 exactly when the error is
`authentication_required` and 403 otherwise. -/
def permissionGate (permissions : List String) (user : Option User) :
    Option ApiResponse :=
  if permissions.isEmpty then
    none
  else
    match check_permissions user permissions with
    | (true, _) => none
    | (false, err) =>
      let e := err.getD ""
      some { data := .obj [("error", .str e)],
             status := if e = "authentication_required" then 401 else 403 }

/-- The shape of `ApiView.__call__` around the handler for a handler with
declared permissions: the permission gate either short-circuits to its error
response or the rest of the pipeline (`proceed`, which is what invokes the
handler) runs. -/
def viewEntry (permissions : List String) (user : Option User)
    (proceed : Unit → Except String ApiResponse) : Except String ApiResponse :=
  match permissionGate permissions user with
  | some r => .ok r
  | none => proceed ()

/-! ## Structured record types and output conversion
(`hatchway/schema.py`, and `ApiView.__call__` lines 440-447)

A structured record (Schema) type is modelled by `STy`; `coerce` models
`msgspec.convert` (with its `strict` flag: non-strict mode additionally
coerces numeric/boolean values from strings), restricted to the value domain
of `Value`. -/

inductive STy where
  | str
  | int
  | bool
  | opt (t : STy)
  | listOf (t : STy)
  | schema (fields : List (String × STy))

mutual

/-- Whether a value is (the flattening of) an instance of the given type: an
instance of a struct type has exactly the declared fields, in declaration
order, each value an instance of its field type. -/
def conforms : STy → Value → Bool
  | .str, .str _ => true
  | .int, .num _ => true
  | .bool, .bool _ => true
  | .opt _, .null => true
  | .opt t, v => conforms t v
  | .listOf t, .list xs => conformsList t xs
  | .schema fields, .obj kvs => conformsFields fields kvs
  | _, _ => false

def conformsList : STy → List Value → Bool
  | _, [] => true
  | t, x :: xs => conforms t x && conformsList t xs

def conformsFields : List (String × STy) → List (String × Value) → Bool
  | [], [] => true
  | (fn, ft) :: fr, (kn, kv) :: kr =>
    decide (kn = fn) && conforms ft kv && conformsFields fr kr
  | _, _ => false

end

mutual

/-- `msgspec.convert(v, type=t, strict=strict)` on the embedded value
domain: strict mode requires matching primitives, non-strict mode (used for
request binding and output validation, since query/path values arrive as
strings) additionally parses ints and bools out of strings; `Optional`
accepts the absence value; a struct type accepts a dict that has every
declared field (unknown keys are ignored), producing the struct's fields in
declaration order. -/
def coerce (strict : Bool) : STy → Value → Except String Value
  | .str, .str s => .ok (.str s)
  | .int, .num n => .ok (.num n)
  | .int, .str s =>
    if strict then .error "expected int"
    else
      match s.toInt? with
      | some n => .ok (.num n)
      | none => .error "invalid int string"
  | .bool, .bool b => .ok (.bool b)
  | .bool, .str s =>
    if strict then .error "expected bool"
    else if s = "true" then .ok (.bool true)
    else if s = "false" then .ok (.bool false)
    else .error "invalid bool string"
  | .opt _, .null => .ok .null
  | .opt t, v => coerce strict t v
  | .listOf t, .list xs =>
    match coerceList strict t xs with
    | .ok ys => .ok (.list ys)
    | .error e => .error e
  | .schema fields, .obj kvs =>
    match coerceFields strict fields kvs with
    | .ok r => .ok (.obj r)
    | .error e => .error e
  | _, _ => .error "type mismatch"

def coerceList (strict : Bool) : STy → List Value → Except String (List Value)
  | _, [] => .ok []
  | t, x :: xs =>
    match coerce strict t x with
    | .error e => .error e
    | .ok y =>
      match coerceList strict t xs with
      | .error e => .error e
      | .ok ys => .ok (y :: ys)

def coerceFields (strict : Bool) :
    List (String × STy) → List (String × Value) → Except String (List (String × Value))
  | [], _ => .ok []
  | (fn, ft) :: fr, kvs =>
    match lookupV kvs fn with
    | none => .error "missing required field"
    | some v =>
      match coerce strict ft v with
      | .error e => .error e
      | .ok y =>
        match coerceFields strict fr kvs with
        | .error e => .error e
        | .ok r => .ok ((fn, y) :: r)

end

mutual

/-- Well-formedness of a record type as `msgspec.defstruct` guarantees it:
field names are distinct, recursively. -/
def STyWF : STy → Bool
  | .opt t => STyWF t
  | .listOf t => STyWF t
  | .schema fields => decide ((fields.map Prod.fst).Nodup) && fieldsWF fields
  | _ => true

def fieldsWF : List (String × STy) → Bool
  | [] => true
  | (_, ft) :: fr => STyWF ft && fieldsWF fr

end

/-- The readable attributes of a value, as `Schema.from_orm` sees them: only
persistence-layer (`orm`) objects expose attributes in this embedding. -/
def attrsOf : Value → List (String × Value)
  | .orm attrs => attrs
  | _ => []

/-- `Schema.from_orm` (`hatchway/schema.py` lines 16-40): read each declared
field off the object by name (fields whose attribute is missing are
skipped), then `msgspec.convert` the collected dict against the schema type
(strict mode — `from_orm` does not pass `strict=False`).  The
`Manager`/`QuerySet`/callable/`FieldFile` special cases act on objects
outside this embedding's value domain and are identities here. -/
def from_orm (fields : List (String × STy)) (attrs : List (String × Value)) :
    Except String Value :=
  coerce true (.schema fields)
    (.obj (fields.filterMap fun p => (lookupV attrs p.1).map fun v => (p.1, v)))

/-- `convert_from_orm` (`hatchway/schema.py` lines 45-68): a non-empty
collection whose first element is a persistence object, against a
collection-of-record target, converts element-wise; a persistence object
against a record target converts via `from_orm`; everything else passes
through unchanged. -/
def convert_from_orm (data : Value) (target : Option STy) : Except String Value :=
  match target with
  | none => .ok data
  | some t =>
    match t, data with
    | .listOf (.schema fields), .list (x :: xs) =>
      match x with
      | .orm _ =>
        match (x :: xs).mapM fun v => from_orm fields (attrsOf v) with
        | .ok ys => .ok (.list ys)
        | .error e => .error e
      | _ => .ok data
    | .schema fields, .orm attrs => from_orm fields attrs
    | _, _ => .ok data

/-- The output-validation step of `ApiView.__call__` (lines 440-445): bridge
ORM objects via `convert_from_orm`, wrap as the output model's single
`value` field, `msgspec.convert` with `strict=False`, and unwrap. -/
def outputConvert (t : STy) (v : Value) : Except String Value :=
  match convert_from_orm v (some t) with
  | .error e => .error e
  | .ok d =>
    match coerce false (.schema [("value", t)]) (.obj [("value", d)]) with
    | .ok (.obj [(_, x)]) => .ok x
    | .ok _ => .error "unreachable: the output model has exactly one field"
    | .error e => .error e

/-- The outcome of calling the wrapped view function. -/
inductive ViewOutcome where
  | ok (v : Value)
  | missingArgTypeError (msg : String)
  | otherTypeError (msg : String)
  | apiError (status : Nat) (error : String)

/-- `ApiView.__call__` from the source-binding loop to the response
(`hatchway/view.py` lines 335-449), for a request that passed the method,
auth and permission gates.  `convertInput` stands for
`msgspec.convert(values, type=self.input_model, strict=False)`, whose
result is read back field by field (`getattr`); `view` is the wrapped
handler.  An `Except.error` result models an exception propagating out of
the view (re-raised `TypeError`s, or output validation failure). -/
def validateAndCall
    (convertInput : List (String × Value) → Except String (List (String × Value)))
    (view : List (String × Value) → ViewOutcome)
    (outputType : Option STy) (validate_output : Bool)
    (m : RequestMaps) (c : Compiled) : Except String ApiResponse :=
  let run : List (String × Value) → Except String ApiResponse := fun kwargs =>
    match view kwargs with
    | .missingArgTypeError _ =>
      .ok { data := .obj [("error", .str "invalid_input")], status := 400 }
    | .otherTypeError msg => .error msg
    | .apiError st e => .ok { data := .obj [("error", .str e)], status := st }
    | .ok v =>
      match outputType, validate_output with
      | some t, true =>
        match outputConvert t v with
        | .ok d => .ok { data := d, status := 200 }
        | .error e => .error e
      | _, _ => .ok { data := v, status := 200 }
  if c.sources = [] ∧ c.input_files = [] then
    run []
  else
    let values := buildValues m c.sources
    match convertInput values with
    | .error msg => .ok (invalidInputResponse msg)
    | .ok inst =>
      run (computeKwargs inst values m.filesValues c.input_files)

/-! ## Theorems -/

/-- A source that does not fire is skipped: the loop falls through to the
remaining candidates. -/
theorem resolveParam_cons_miss (m : RequestMaps) (name : String) (s : InputSource)
    (rest : List InputSource) (h : sourceHits m name s = false) :
    resolveParam m name (s :: rest) = resolveParam m name rest := by
  cases s <;>
    simp only [sourceHits, containsKey, Option.isSome_iff_exists] at h <;>
    simp only [resolveParam] <;>
    first
      | (cases hl : lookupV m.pathKwargs name <;> simp_all)
      | (cases hl : lookupV m.queryValues name <;> simp_all)
      | (cases hl : lookupV m.bodyValues name <;> simp_all)
      | (cases hl : lookupV m.filesValues name <;> simp_all)

/-- A source that fires binds its value and the loop breaks. -/
theorem resolveParam_cons_hit (m : RequestMaps) (name : String) (s : InputSource)
    (rest : List InputSource) (h : sourceHits m name s = true) :
    resolveParam m name (s :: rest) = sourceBind m name s := by
  cases s <;>
    simp only [sourceHits, containsKey, Option.isSome_iff_exists] at h ⊢ <;>
    simp only [resolveParam, sourceBind] <;>
    first
      | rfl
      | (cases hl : lookupV m.pathKwargs name <;> simp_all)
      | (cases hl : lookupV m.queryValues name <;> simp_all)
      | (cases hl : lookupV m.bodyValues name <;> simp_all)
      | (cases hl : lookupV m.filesValues name <;> simp_all)

/-- If no candidate source fires, the `for`-`else` clause yields `None`. -/
theorem resolveParam_null_of_misses (m : RequestMaps) (name : String)
    (srcs : List InputSource) (h : ∀ s ∈ srcs, sourceHits m name s = false) :
    resolveParam m name srcs = .null := by
  induction srcs with
  | nil => rfl
  | cons s rest ih =>
    rw [resolveParam_cons_miss m name s rest (h s (by simp))]
    exact ih fun s' hs' => h s' (by simp [hs'])

/-- The first firing source determines the bound value, whatever comes
after it. -/
theorem resolveParam_first_hit (m : RequestMaps) (name : String)
    (pre post : List InputSource) (s : InputSource)
    (hpre : ∀ s' ∈ pre, sourceHits m name s' = false)
    (hs : sourceHits m name s = true) :
    resolveParam m name (pre ++ s :: post) = sourceBind m name s := by
  induction pre with
  | nil => exact resolveParam_cons_hit m name s post hs
  | cons p pr ih =>
    rw [List.cons_append,
      resolveParam_cons_miss m name p (pr ++ s :: post) (hpre p (by simp))]
    exact ih fun s' hs' => hpre s' (by simp [hs'])

/-- C2: at request time the binder walks a parameter's candidate source list
in order: the first source that fires determines the bound value and the
loop stops, so no later source can override it; and when no candidate source
fires at all the parameter is bound to the absence value `None` instead of
an error being raised. -/
theorem c2_first_source_wins (m : RequestMaps) (name : String) :
    (∀ srcs : List InputSource,
      (∀ s ∈ srcs, sourceHits m name s = false) → resolveParam m name srcs = .null)
    ∧ ∀ (pre post : List InputSource) (s : InputSource),
        (∀ s' ∈ pre, sourceHits m name s' = false) →
        sourceHits m name s = true →
        resolveParam m name (pre ++ s :: post) = sourceBind m name s :=
  ⟨fun srcs h => resolveParam_null_of_misses m name srcs h,
   fun pre post s hpre hs => resolveParam_first_hit m name pre post s hpre hs⟩

/-- Witness for C2 at a concrete request: `limit` is absent from the path
map but present in the query map, so `[path, query]` binds the query value;
`missing` is in no map and binds `None`. -/
theorem c2_first_source_wins_witness :
    resolveParam
      { pathKwargs := [("id", .num 7)],
        queryValues := [("limit", .str "10")],
        bodyValues := [], filesValues := [] }
      "limit" [InputSource.path, InputSource.query] = .str "10"
    ∧ resolveParam
      { pathKwargs := [("id", .num 7)],
        queryValues := [("limit", .str "10")],
        bodyValues := [], filesValues := [] }
      "missing" [InputSource.path, InputSource.query, InputSource.body] = .null := by
  constructor
  · have h := (c2_first_source_wins
      { pathKwargs := [("id", .num 7)],
        queryValues := [("limit", .str "10")],
        bodyValues := [], filesValues := [] } "limit").2
      [InputSource.path] [] InputSource.query
      (by intro s' hs'; simp at hs'; subst hs'; rfl) (by rfl)
    simpa using h
  · exact (c2_first_source_wins _ "missing").1 _
      (by intro s hs; fin_cases hs <;> rfl)

/-! ### Keyword-argument trimming (lines 411-419) -/

theorem lookupV_setV_ne (l : List (String × Value)) (k n : String) (v : Value)
    (h : n ≠ k) : lookupV (setV l n v) k = lookupV l k := by
  induction l with
  | nil => simp [setV, lookupV, h]
  | cons p rest ih =>
    by_cases hp : p.1 = n
    · simp [setV, hp, lookupV, h]
    · cases p with
      | mk k' v' =>
        simp only at hp
        simp only [setV, hp, if_false, lookupV]
        by_cases hk : k' = k <;> simp [hk, ih]

theorem lookupV_filter_eq_none (q : String × Value → Bool)
    (l : List (String × Value)) (name : String)
    (h : ∀ p ∈ l, p.1 = name → q p = false) :
    lookupV (l.filter q) name = none := by
  induction l with
  | nil => rfl
  | cons p rest ih =>
    by_cases hq : q p
    · have hne : ¬ p.1 = name := fun he => by
        have := h p (by simp) he
        rw [this] at hq
        exact Bool.noConfusion hq
      cases p with
      | mk k v =>
        simp only [List.filter_cons, hq, if_true, lookupV]
        simp only at hne
        simp [hne, ih fun p hp => h p (by simp [hp])]
    · simp only [List.filter_cons, Bool.not_eq_true] at hq ⊢
      rw [hq]
      exact ih fun p hp => h p (by simp [hp])

theorem lookupV_foldl_setV_not_mem (files : List (String × Value))
    (inputFiles : List String) (base : List (String × Value)) (name : String)
    (h : name ∉ inputFiles) :
    lookupV
      (inputFiles.foldl (fun acc n => setV acc n ((lookupV files n).getD .null)) base)
      name = lookupV base name := by
  induction inputFiles generalizing base with
  | nil => rfl
  | cons n rest ih =>
    have hn : n ≠ name := fun he => h (by simp [he])
    rw [List.foldl_cons, ih _ (fun he => h (by simp [he])),
      lookupV_setV_ne base name n _ hn]

/-- A parameter whose resolved raw value is `None` is trimmed out of
`view_kwargs` (and, not being a file parameter, is not re-added). -/
theorem lookupV_computeKwargs_of_null (inst values files : List (String × Value))
    (inputFiles : List String) (name : String)
    (hv : lookupV values name = some .null) (hf : name ∉ inputFiles) :
    lookupV (computeKwargs inst values files inputFiles) name = none := by
  unfold computeKwargs
  rw [lookupV_foldl_setV_not_mem files inputFiles _ name hf]
  apply lookupV_filter_eq_none
  intro p _ hp
  rw [hp, hv]
  simp [Value.isNull]

/-- Looking up a parameter in the `values` dict built by the source loop
gives exactly its resolved value. -/
theorem lookupV_buildValues (m : RequestMaps)
    (sources : List (String × List InputSource)) (name : String)
    (srcs : List InputSource) (hmem : (name, srcs) ∈ sources)
    (hnd : (sources.map Prod.fst).Nodup) :
    lookupV (buildValues m sources) name = some (resolveParam m name srcs) := by
  induction sources with
  | nil => cases hmem
  | cons p rest ih =>
    cases p with
    | mk n ss =>
      simp only [List.map_cons, List.nodup_cons] at hnd
      rcases List.mem_cons.1 hmem with heq | hrest
      · cases heq
        simp [buildValues, lookupV]
      · have hne : n ≠ name := fun he => by
          apply hnd.1
          rw [he]
          exact List.mem_map_of_mem Prod.fst hrest
        simpa [buildValues, lookupV, hne] using ih hrest hnd.2

/-- C6: a parameter with a declared default that no candidate source
supplies resolves to the absence value, which the kwargs construction trims
out, so the handler is invoked without that keyword argument and its
declared default applies. -/
theorem c6_absent_param_uses_default (m : RequestMaps) (name : String)
    (srcs : List InputSource)
    (h : ∀ s ∈ srcs, sourceHits m name s = false) :
    resolveParam m name srcs = .null
    ∧ (∀ sources : List (String × List InputSource),
        (name, srcs) ∈ sources → (sources.map Prod.fst).Nodup →
        lookupV (buildValues m sources) name = some .null)
    ∧ ∀ (inst values files : List (String × Value)) (inputFiles : List String),
        lookupV values name = some .null → name ∉ inputFiles →
        lookupV (computeKwargs inst values files inputFiles) name = none := by
  have hnull := resolveParam_null_of_misses m name srcs h
  refine ⟨hnull, fun sources hmem hnd => ?_, fun inst values files inputFiles hv hf =>
    lookupV_computeKwargs_of_null inst values files inputFiles name hv hf⟩
  rw [lookupV_buildValues m sources name srcs hmem hnd, hnull]

/-- Witness for C6 at the spec's scenario: `limit : Query[int] = 10` with a
request whose query string is empty — `limit` resolves to `None`, and the
kwargs handed to the handler do not mention `limit` even though the coerced
struct carries a `limit` field. -/
theorem c6_absent_param_uses_default_witness :
    resolveParam
      { pathKwargs := [], queryValues := [], bodyValues := [], filesValues := [] }
      "limit" [InputSource.query] = .null
    ∧ lookupV
        (computeKwargs [("limit", .null)] [("limit", .null)] [] []) "limit" = none := by
  have h := c6_absent_param_uses_default
    { pathKwargs := [], queryValues := [], bodyValues := [], filesValues := [] }
    "limit" [InputSource.query] (by intro s hs; fin_cases hs <;> rfl)
  exact ⟨h.1, h.2.2 [("limit", .null)] [("limit", .null)] [] [] rfl (by simp)⟩

/-- C9: a parameter whose first firing source maps it to an explicit `None`
(for example a JSON body key set to `null`) is recorded as `None` and then
trimmed out of the handler's keyword arguments exactly as if it had been
absent from every source: the declared default applies and `None` is never
passed through. -/
theorem c9_explicit_null_is_absent (m : RequestMaps) (name : String)
    (pre post : List InputSource) (s : InputSource)
    (hpre : ∀ s' ∈ pre, sourceHits m name s' = false)
    (hs : sourceHits m name s = true)
    (hnull : sourceBind m name s = .null) :
    resolveParam m name (pre ++ s :: post) = .null
    ∧ ∀ (inst values files : List (String × Value)) (inputFiles : List String),
        lookupV values name = some .null → name ∉ inputFiles →
        lookupV (computeKwargs inst values files inputFiles) name = none := by
  refine ⟨?_, fun inst values files inputFiles hv hf =>
    lookupV_computeKwargs_of_null inst values files inputFiles name hv hf⟩
  rw [resolveParam_first_hit m name pre post s hpre hs, hnull]

/-- Witness for C9: a JSON body `{"tag": null}` — the body source contains
the key `tag`, binds `None`, and `tag` is excluded from the kwargs. -/
theorem c9_explicit_null_is_absent_witness :
    resolveParam
      { pathKwargs := [], queryValues := [],
        bodyValues := [("tag", .null)], filesValues := [] }
      "tag" [InputSource.query, InputSource.body] = .null
    ∧ lookupV (computeKwargs [("tag", .null)] [("tag", .null)] [] []) "tag" = none := by
  have h := c9_explicit_null_is_absent
    { pathKwargs := [], queryValues := [],
      bodyValues := [("tag", .null)], filesValues := [] }
    "tag" [InputSource.query] [] InputSource.body
    (by intro s' hs'; fin_cases hs' <;> rfl) rfl rfl
  exact ⟨h.1, h.2 [("tag", .null)] [("tag", .null)] [] [] rfl (by simp)⟩

/-! ### Validation failure responses (lines 392-410) -/

/-- C5: whenever coercion/validation of the merged value set against the
compiled input schema fails, the response is status 400 with `"error"`
equal to `"invalid_input"` and a non-empty `"error_details"` list,
regardless of which field caused the failure. -/
theorem c5_validation_failure_shape
    (convertInput : List (String × Value) → Except String (List (String × Value)))
    (view : List (String × Value) → ViewOutcome)
    (outputType : Option STy) (validate_output : Bool)
    (m : RequestMaps) (c : Compiled) (msg : String)
    (hne : ¬ (c.sources = [] ∧ c.input_files = []))
    (hconv : convertInput (buildValues m c.sources) = .error msg) :
    validateAndCall convertInput view outputType validate_output m c =
      .ok (invalidInputResponse msg)
    ∧ (invalidInputResponse msg).status = 400
    ∧ ∃ kvs details, (invalidInputResponse msg).data = .obj kvs
        ∧ lookupV kvs "error" = some (.str "invalid_input")
        ∧ lookupV kvs "error_details" = some (.list details)
        ∧ details ≠ [] := by
  refine ⟨?_, rfl, ?_⟩
  · simp only [validateAndCall, if_neg hne, hconv]
  · exact ⟨_, _, rfl, rfl, rfl, by simp⟩

/-- Witness for C5: a one-parameter handler and a validator rejecting the
resolved values. -/
theorem c5_validation_failure_shape_witness :
    validateAndCall (fun _ => .error "Expected `int`, got `str`")
      (fun _ => .ok .null) none true
      { pathKwargs := [], queryValues := [("limit", .str "x")],
        bodyValues := [], filesValues := [] }
      { sources := [("limit", [InputSource.query])], input_files := [],
        input_fields := ["limit"] } =
      .ok (invalidInputResponse "Expected `int`, got `str`")
    ∧ (invalidInputResponse "Expected `int`, got `str`").status = 400 := by
  have h := c5_validation_failure_shape (fun _ => .error "Expected `int`, got `str`")
    (fun _ => .ok .null) none true
    { pathKwargs := [], queryValues := [("limit", .str "x")],
      bodyValues := [], filesValues := [] }
    { sources := [("limit", [InputSource.query])], input_files := [],
      input_fields := ["limit"] }
    "Expected `int`, got `str`" (by simp) rfl
  exact ⟨h.1, h.2.1⟩

/-- C10: the `error_details` list of a validation-failure response always
has exactly one element, whose `loc` is the placeholder `["<unknown>"]` and
whose `type` is `"value_error"` — the failing field is never named. -/
theorem c10_error_details_placeholder
    (convertInput : List (String × Value) → Except String (List (String × Value)))
    (view : List (String × Value) → ViewOutcome)
    (outputType : Option STy) (validate_output : Bool)
    (m : RequestMaps) (c : Compiled) (msg : String)
    (hne : ¬ (c.sources = [] ∧ c.input_files = []))
    (hconv : convertInput (buildValues m c.sources) = .error msg) :
    ∃ r kvs, validateAndCall convertInput view outputType validate_output m c = .ok r
      ∧ r.data = .obj kvs
      ∧ lookupV kvs "error_details" =
          some (.list [.obj [("loc", .list [.str "<unknown>"]),
                             ("msg", .str msg),
                             ("type", .str "value_error")]]) := by
  refine ⟨invalidInputResponse msg, _, ?_, rfl, rfl⟩
  simp only [validateAndCall, if_neg hne, hconv]

/-- Witness for C10 at a concrete failing request. -/
theorem c10_error_details_placeholder_witness :
    ∃ r kvs,
      validateAndCall (fun _ => .error "Expected `int`, got `str`")
        (fun _ => .ok .null) none true
        { pathKwargs := [], queryValues := [("limit", .str "x")],
          bodyValues := [], filesValues := [] }
        { sources := [("limit", [InputSource.query])], input_files := [],
          input_fields := ["limit"] } = .ok r
      ∧ r.data = .obj kvs
      ∧ lookupV kvs "error_details" =
          some (.list [.obj [("loc", .list [.str "<unknown>"]),
                             ("msg", .str "Expected `int`, got `str`"),
                             ("type", .str "value_error")]]) :=
  c10_error_details_placeholder (fun _ => .error "Expected `int`, got `str`")
    (fun _ => .ok .null) none true
    { pathKwargs := [], queryValues := [("limit", .str "x")],
      bodyValues := [], filesValues := [] }
    { sources := [("limit", [InputSource.query])], input_files := [],
      input_fields := ["limit"] }
    "Expected `int`, got `str`" (by simp) rfl

/-! ### Permission gating (lines 329-333, `hatchway/permissions.py`) -/

/-- C7: with a non-empty permission list, an unauthenticated user gets a 401
`authentication_required` response and an authenticated user missing a
required permission gets a 403 `permission_denied` response; in both cases
the result is independent of the rest of the pipeline, so the handler is
never invoked. -/
theorem c7_permission_responses (permissions : List String) (user : Option User)
    (hperm : permissions ≠ []) :
    ((user = none ∨ (∃ u, user = some u ∧ u.is_authenticated = false)) →
      ∀ proceed : Unit → Except String ApiResponse,
        viewEntry permissions user proceed =
          .ok { data := .obj [("error", .str "authentication_required")],
                status := 401 })
    ∧ ∀ u p, user = some u → u.is_authenticated = true → p ∈ permissions →
        has_perm u p = false →
        ∀ proceed : Unit → Except String ApiResponse,
          viewEntry permissions user proceed =
            .ok { data := .obj [("error", .str "permission_denied")],
                  status := 403 } := by
  have hne : permissions.isEmpty = false := by
    cases permissions with
    | nil => exact absurd rfl hperm
    | cons a l => rfl
  constructor
  · rintro (hu | ⟨u, hu, hauth⟩) proceed
    · subst hu
      simp [viewEntry, permissionGate, hne, check_permissions]
    · subst hu
      simp [viewEntry, permissionGate, hne, check_permissions, hauth]
  · intro u p hu hauth hp hlack proceed
    subst hu
    have hfind : (permissions.find? fun q => !has_perm u q).isSome := by
      rw [List.find?_isSome]
      exact ⟨p, hp, by simp [hlack]⟩
    cases hf : permissions.find? fun q => !has_perm u q with
    | none => rw [hf] at hfind; exact Bool.noConfusion hfind
    | some q =>
      simp [viewEntry, permissionGate, hne, check_permissions, hauth, hf]

/-- Witness for C7: the spec's two scenarios at concrete users. -/
theorem c7_permission_responses_witness :
    (∀ proceed : Unit → Except String ApiResponse,
      viewEntry ["app.x"] none proceed =
        .ok { data := .obj [("error", .str "authentication_required")],
              status := 401 })
    ∧ ∀ proceed : Unit → Except String ApiResponse,
        viewEntry ["app.x"] (some { is_authenticated := true, perms := [] }) proceed =
          .ok { data := .obj [("error", .str "permission_denied")],
                status := 403 } :=
  ⟨fun proceed =>
    (c7_permission_responses ["app.x"] none (by simp)).1 (Or.inl rfl) proceed,
   fun proceed =>
    (c7_permission_responses ["app.x"] (some { is_authenticated := true, perms := [] })
      (by simp)).2 { is_authenticated := true, perms := [] } "app.x" rfl rfl
      (by simp) rfl proceed⟩

/-! ### Single-body promotion (`ApiView.compile`, lines 269-281) -/

theorem lastBodyType_of_filter_nil (params : List (String × List InputSource × Ty))
    (h : (params.filter fun q => decide (InputSource.body ∈ q.2.1)) = [])
    (acc : Option Ty) :
    params.foldl (fun a p => if InputSource.body ∈ p.2.1 then some p.2.2 else a) acc
      = acc := by
  induction params generalizing acc with
  | nil => rfl
  | cons q rest ih =>
    rw [List.filter_cons] at h
    by_cases hb : InputSource.body ∈ q.2.1
    · simp [hb] at h
    · simp only [hb] at h
      rw [List.foldl_cons, if_neg hb]
      simp only [decide_False, if_false] at h
      exact ih h acc

theorem lastBodyType_of_filter_singleton (params : List (String × List InputSource × Ty))
    (p : String × List InputSource × Ty)
    (h : (params.filter fun q => decide (InputSource.body ∈ q.2.1)) = [p]) :
    lastBodyType params = some p.2.2 := by
  unfold lastBodyType
  generalize (none : Option Ty) = acc
  induction params generalizing acc with
  | nil => cases h
  | cons q rest ih =>
    rw [List.filter_cons] at h
    by_cases hb : InputSource.body ∈ q.2.1
    · simp only [hb, decide_True, if_true, List.cons.injEq] at h
      rw [List.foldl_cons, if_pos hb]
      rw [h.1]
      exact lastBodyType_of_filter_nil rest h.2 _
    · simp only [hb, decide_False, if_false] at h
      rw [List.foldl_cons, if_neg hb]
      exact ih h acc

/-- C1: if after classification exactly one parameter has `body` among its
candidate sources and its resolved type is a Schema model, compilation
rewrites that parameter's source list by dropping `body` and appending
`body_direct`; if more than one parameter is body-eligible, every
parameter's source list is kept exactly as classified. -/
theorem c1_single_body_promotion (input_types : List (String × Ty))
    (params : List (String × List InputSource × Ty))
    (hcls : classifyParams input_types = .ok params) :
    (∀ p, (params.filter fun q => decide (InputSource.body ∈ q.2.1)) = [p] →
      is_model_subclass p.2.2 = true →
      ∃ c, compile input_types = .ok c
        ∧ c.sources = params.map (fun q =>
            if InputSource.body ∈ q.2.1 then
              (q.1, q.2.1.filter (fun x => x ≠ InputSource.body)
                ++ [InputSource.body_direct])
            else (q.1, q.2.1))
        ∧ (p.1, p.2.1.filter (fun x => x ≠ InputSource.body)
            ++ [InputSource.body_direct]) ∈ c.sources)
    ∧ (1 < (params.filter fun q => decide (InputSource.body ∈ q.2.1)).length →
      ∃ c, compile input_types = .ok c
        ∧ c.sources = params.map fun q => (q.1, q.2.1)) := by
  constructor
  · intro p hfilter hmodel
    have hlbt := lastBodyType_of_filter_singleton params p hfilter
    refine ⟨_, by rw [compile, hcls], ?_, ?_⟩
    · show promoteBody params = _
      unfold promoteBody
      rw [hfilter, hlbt]
      simp [hmodel]
    · show _ ∈ promoteBody params
      have hp_mem : p ∈ params := List.mem_of_mem_filter (hfilter ▸ List.mem_singleton_self p)
      have hp_body : InputSource.body ∈ p.2.1 := by
        have := List.of_mem_filter (hfilter ▸ List.mem_singleton_self p)
        exact of_decide_eq_true this
      unfold promoteBody
      rw [hfilter, hlbt]
      simp only [List.length_singleton, hmodel, and_true, if_true]
      refine List.mem_map.2 ⟨p, hp_mem, ?_⟩
      rw [if_pos hp_body]
  · intro hgt
    refine ⟨_, by rw [compile, hcls], ?_⟩
    show promoteBody params = _
    unfold promoteBody
    rw [if_neg (by omega)]

/-- Witness for C1 at the spec's scenario: a handler with the single
parameter `data : PostCreateSchema` compiles `data` to `[body_direct]`,
while a handler with two body parameters keeps both on plain `[body]`. -/
theorem c1_single_body_promotion_witness :
    (∃ c, compile [("data", Ty.model "PostCreateSchema")] = .ok c
      ∧ c.sources = [("data", [InputSource.body_direct])])
    ∧ ∃ c, compile [("a", Ty.model "S1"), ("b", Ty.model "S2")] = .ok c
      ∧ c.sources = [("a", [InputSource.body]), ("b", [InputSource.body])] := by
  constructor
  · obtain ⟨c, hc, hs, -⟩ :=
      (c1_single_body_promotion [("data", Ty.model "PostCreateSchema")]
        [("data", [InputSource.body], Ty.model "PostCreateSchema")] rfl).1
        ("data", [InputSource.body], Ty.model "PostCreateSchema") (by decide) rfl
    refine ⟨c, hc, ?_⟩
    rw [hs]
    decide
  · obtain ⟨c, hc, hs⟩ :=
      (c1_single_body_promotion [("a", Ty.model "S1"), ("b", Ty.model "S2")]
        [("a", [InputSource.body], Ty.model "S1"),
         ("b", [InputSource.body], Ty.model "S2")] rfl).2 (by decide)
    exact ⟨c, hc, by rw [hs]; rfl⟩

/-! ### Collection-typed query parameters (C4) -/

/-- The value a `QueryDict` entry contributes to `get_values`: the bare
value for a single-valued key, the full `getlist` for a repeated key. -/
def collapseQD : List Value → Value
  | [] => .list []
  | [v] => v
  | vs => .list vs

theorem lookupV_append (l1 l2 : List (String × Value)) (k : String) :
    lookupV (l1 ++ l2) k =
      match lookupV l1 k with
      | some v => some v
      | none => lookupV l2 k := by
  induction l1 with
  | nil => rfl
  | cons p rest ih =>
    cases p with
    | mk k' v' =>
      by_cases hk : k' = k <;> simp [lookupV, hk, ih]

theorem setV_append_of_none (l : List (String × Value)) (k : String) (v : Value)
    (h : lookupV l k = none) : setV l k v = l ++ [(k, v)] := by
  induction l with
  | nil => rfl
  | cons p rest ih =>
    cases p with
    | mk k' v' =>
      simp only [lookupV] at h
      by_cases hk : k' = k
      · rw [if_pos hk] at h; cases h
      · rw [if_neg hk] at h
        simp [setV, hk, ih h]

theorem lookupV_of_mem_nodup (l : List (String × Value)) (k : String) (v : Value)
    (hmem : (k, v) ∈ l) (hnd : (l.map Prod.fst).Nodup) :
    lookupV l k = some v := by
  induction l with
  | nil => cases hmem
  | cons p rest ih =>
    cases p with
    | mk k' v' =>
      simp only [List.map_cons, List.nodup_cons] at hnd
      rcases List.mem_cons.1 hmem with heq | hrest
      · cases heq
        simp [lookupV]
      · have hne : k' ≠ k := fun he => hnd.1 (he ▸ List.mem_map_of_mem Prod.fst hrest)
        simpa [lookupV, hne] using ih hrest hnd.2

/-- On a `QueryDict` whose keys contain no `[`, `get_values` is exactly the
per-key collapse: repeated keys become the full list of their values, single
keys the bare value. -/
theorem get_values_qd_no_brackets (raw : List (String × List Value)) (usb : Bool)
    (hk : ∀ kv ∈ raw, pyIn '[' kv.1 = false)
    (hnd : (raw.map Prod.fst).Nodup) :
    get_values_qd raw usb = .ok (raw.map fun kv => (kv.1, collapseQD kv.2)) := by
  suffices h : ∀ acc : List (String × Value),
      (∀ kv ∈ raw, lookupV acc kv.1 = none) →
      raw.foldlM
        (fun result kv =>
          match kv.2 with
          | [] => getValuesEntry usb result kv.1 (.list [])
          | [v] => getValuesEntry usb result kv.1 v
          | vs => getValuesEntry usb result kv.1 (.list vs)) acc =
        .ok (acc ++ raw.map fun kv => (kv.1, collapseQD kv.2)) by
    simpa [get_values_qd] using h [] (fun kv _ => rfl)
  induction raw with
  | nil =>
    intro acc _
    simp only [List.foldlM_nil, List.map_nil, List.append_nil]
    rfl
  | cons kv rest ih =>
    intro acc hacc
    have hkv : pyIn '[' kv.1 = false := hk kv (by simp)
    have hstep : ∀ value : Value,
        getValuesEntry usb acc kv.1 value = .ok (acc ++ [(kv.1, value)]) := by
      intro value
      rw [getValuesEntry, if_neg (by simp [hkv]),
        setV_append_of_none acc kv.1 value (hacc kv (by simp))]
    have hone : (match kv.2 with
        | [] => getValuesEntry usb acc kv.1 (.list [])
        | [v] => getValuesEntry usb acc kv.1 v
        | vs => getValuesEntry usb acc kv.1 (.list vs)) =
        .ok (acc ++ [(kv.1, collapseQD kv.2)]) := by
      match hv : kv.2 with
      | [] => exact hstep (.list [])
      | [v] => exact hstep v
      | v₁ :: v₂ :: vs => exact hstep (.list (v₁ :: v₂ :: vs))
    rw [List.foldlM_cons, hone]
    rw [List.map_cons] at hnd
    have hnd2 := List.nodup_cons.1 hnd
    have := ih (fun kv' h' => hk kv' (by simp [h'])) hnd2.2
      (acc ++ [(kv.1, collapseQD kv.2)])
      (fun kv' h' => by
        rw [lookupV_append, hacc kv' (by simp [h'])]
        have hne : kv.1 ≠ kv'.1 := fun he =>
          hnd2.1 (he ▸ List.mem_map_of_mem Prod.fst h')
        simp [lookupV, hne])
    exact this.trans (by simp)

/-- C4: a parameter bound from `query_list` always receives a list — a
query key repeated `n > 1` times binds the list of all `n` values in order,
and a key occurring exactly once binds the one-element list of its value,
never the bare string. -/
theorem c4_query_list_always_list (raw : List (String × List Value)) (name : String)
    (vs : List Value)
    (hk : ∀ kv ∈ raw, pyIn '[' kv.1 = false)
    (hnd : (raw.map Prod.fst).Nodup)
    (hmem : (name, vs) ∈ raw)
    (hstr : ∀ v ∈ vs, v.isList = false) :
    ∃ qv, get_values_qd raw true = .ok qv ∧
      ∀ pk bv fv : List (String × Value),
        (1 < vs.length →
          resolveParam
            { pathKwargs := pk, queryValues := qv, bodyValues := bv, filesValues := fv }
            name [InputSource.query_list] = .list vs)
        ∧ ∀ v, vs = [v] →
          resolveParam
            { pathKwargs := pk, queryValues := qv, bodyValues := bv, filesValues := fv }
            name [InputSource.query_list] = .list [v] := by
  refine ⟨_, get_values_qd_no_brackets raw true hk hnd, fun pk bv fv => ?_⟩
  have hlook : lookupV (raw.map fun kv => (kv.1, collapseQD kv.2)) name =
      some (collapseQD vs) := by
    apply lookupV_of_mem_nodup
    · exact List.mem_map.2 ⟨(name, vs), hmem, rfl⟩
    · simpa [List.map_map, Function.comp] using hnd
  constructor
  · intro hlen
    have hcoll : collapseQD vs = .list vs := by
      match vs, hlen with
      | v₁ :: v₂ :: rest, _ => rfl
    simp [resolveParam, hlook, hcoll, Value.isList]
  · intro v hv
    subst hv
    have : (collapseQD [v]).isList = false := hstr v (by simp)
    simp only [resolveParam, hlook]
    rw [if_neg (by simp [this])]
    rfl

/-- Witness for C4: `tags=a&tags=b` binds `["a","b"]`; `tags=a` binds
`["a"]`. -/
theorem c4_query_list_always_list_witness :
    (∃ qv, get_values_qd [("tags", [.str "a", .str "b"])] true = .ok qv ∧
      resolveParam
        { pathKwargs := [], queryValues := qv, bodyValues := [], filesValues := [] }
        "tags" [InputSource.query_list] = .list [.str "a", .str "b"])
    ∧ ∃ qv, get_values_qd [("tags", [.str "a"])] true = .ok qv ∧
      resolveParam
        { pathKwargs := [], queryValues := qv, bodyValues := [], filesValues := [] }
        "tags" [InputSource.query_list] = .list [.str "a"] := by
  constructor
  · obtain ⟨qv, hq, h⟩ := c4_query_list_always_list
      [("tags", [.str "a", .str "b"])] "tags" [.str "a", .str "b"]
      (by intro kv hkv; fin_cases hkv <;> rfl) (by simp)
      (by simp) (by intro v hv; fin_cases hv <;> rfl)
    exact ⟨qv, hq, (h [] [] []).1 (by simp)⟩
  · obtain ⟨qv, hq, h⟩ := c4_query_list_always_list
      [("tags", [.str "a"])] "tags" [.str "a"]
      (by intro kv hkv; fin_cases hkv <;> rfl) (by simp)
      (by simp) (by intro v hv; fin_cases hv <;> rfl)
    exact ⟨qv, hq, (h [] [] []).2 (.str "a") rfl⟩

/-! ### JSON body merging (C3) -/

/-- On a plain dict whose keys contain no `[`, `get_values` is the
identity (given unique keys, as a parsed JSON object has). -/
theorem get_values_no_brackets (data : List (String × Value)) (usb : Bool)
    (hk : ∀ kv ∈ data, pyIn '[' kv.1 = false)
    (hnd : (data.map Prod.fst).Nodup) :
    get_values data usb = .ok data := by
  suffices h : ∀ acc : List (String × Value),
      (∀ kv ∈ data, lookupV acc kv.1 = none) →
      data.foldlM (fun result kv => getValuesEntry usb result kv.1 kv.2) acc =
        .ok (acc ++ data) by
    simpa [get_values] using h [] (fun kv _ => rfl)
  induction data with
  | nil =>
    intro acc _
    simp only [List.foldlM_nil, List.append_nil]
    rfl
  | cons kv rest ih =>
    intro acc hacc
    have hstep : getValuesEntry usb acc kv.1 kv.2 = .ok (acc ++ [kv]) := by
      rw [getValuesEntry, if_neg (by simp [hk kv (by simp)]),
        setV_append_of_none acc kv.1 kv.2 (hacc kv (by simp))]
    rw [List.foldlM_cons, hstep]
    rw [List.map_cons] at hnd
    have hnd2 := List.nodup_cons.1 hnd
    have := ih (fun kv' h' => hk kv' (by simp [h'])) hnd2.2 (acc ++ [kv])
      (fun kv' h' => by
        rw [lookupV_append, hacc kv' (by simp [h'])]
        have hne : kv.1 ≠ kv'.1 := fun he =>
          hnd2.1 (he ▸ List.mem_map_of_mem Prod.fst h')
        simp [lookupV, hne])
    exact this.trans (by simp)

/-- Counterexample to C3 as stated: the source passes the parsed JSON object
through `get_values` with `use_square_brackets` at its default `True`
(`hatchway/view.py` line 355), so the JSON key `a[b]` does NOT stay a single
flat key — it is bracket-expanded to a nested dict. -/
theorem c3_counterexample :
    mergeJsonBody [] [("a[b]", Value.str "v")] =
      .ok [("a", Value.obj [("b", Value.str "v")])]
    ∧ mergeJsonBody [] [("a[b]", Value.str "v")] ≠
      .ok [("a[b]", Value.str "v")] := by
  refine ⟨rfl, fun h => ?_⟩
  rw [show mergeJsonBody [] [("a[b]", Value.str "v")] =
      .ok [("a", Value.obj [("b", Value.str "v")])] from rfl] at h
  simp at h

/-- C3 as amended: a parsed JSON body is merged into the body map through
the same `get_values` flattening as form data, with bracket expansion
enabled; consequently JSON keys containing no `[` are merged directly as
flat keys (while a key containing `[` is expanded, per the
counterexample). -/
theorem c3_amended_json_merge (body_values jsonBody : List (String × Value))
    (hk : ∀ kv ∈ jsonBody, pyIn '[' kv.1 = false)
    (hnd : (jsonBody.map Prod.fst).Nodup) :
    mergeJsonBody body_values jsonBody = .ok (updateV body_values jsonBody) := by
  rw [mergeJsonBody, get_values_no_brackets jsonBody true hk hnd]

/-- Witness for the amended C3: a flat JSON body `{"title": "T"}` merges
directly into the body map. -/
theorem c3_amended_json_merge_witness :
    mergeJsonBody [("author", Value.num 1)] [("title", Value.str "T")] =
      .ok [("author", Value.num 1), ("title", Value.str "T")] := by
  have h := c3_amended_json_merge [("author", Value.num 1)] [("title", Value.str "T")]
    (by intro kv hkv; fin_cases hkv <;> rfl) (by simp)
  rw [h]
  rfl

/-! ### Output conversion idempotence (C8) -/

/-- Field coercion ignores a leading dict entry whose key is not among the
remaining field names (unknown keys are ignored; lookups skip it). -/
theorem coerceFields_cons_ne (strict : Bool) (kn : String) (kv : Value)
    (fr : List (String × STy)) (kr : List (String × Value))
    (h : ∀ p ∈ fr, p.1 ≠ kn) :
    coerceFields strict fr ((kn, kv) :: kr) = coerceFields strict fr kr := by
  induction fr with
  | nil => simp [coerceFields]
  | cons q fr' ih =>
    cases q with
    | mk fn ft =>
      have hne : ¬ kn = fn := fun he => (h (fn, ft) (by simp)) he.symm
      simp only [coerceFields, lookupV, if_neg hne]
      rw [ih fun p hp => h p (by simp [hp])]

mutual

/-- Coercing a value that is already an instance of a well-formed type is
the identity. -/
theorem coerce_id_of_conforms (strict : Bool) (t : STy) (v : Value)
    (hw : STyWF t = true) (hc : conforms t v = true) :
    coerce strict t v = .ok v := by
  cases t with
  | str => cases v <;> simp_all [conforms, coerce]
  | int => cases v <;> simp_all [conforms, coerce]
  | bool => cases v <;> simp_all [conforms, coerce]
  | opt t' =>
    simp only [STyWF] at hw
    cases v with
    | null => simp [coerce]
    | bool b =>
      have h1 : conforms t' (.bool b) = true := by simpa [conforms] using hc
      simpa [coerce] using coerce_id_of_conforms strict t' (.bool b) hw h1
    | num n =>
      have h1 : conforms t' (.num n) = true := by simpa [conforms] using hc
      simpa [coerce] using coerce_id_of_conforms strict t' (.num n) hw h1
    | str s =>
      have h1 : conforms t' (.str s) = true := by simpa [conforms] using hc
      simpa [coerce] using coerce_id_of_conforms strict t' (.str s) hw h1
    | list xs =>
      have h1 : conforms t' (.list xs) = true := by simpa [conforms] using hc
      simpa [coerce] using coerce_id_of_conforms strict t' (.list xs) hw h1
    | obj kvs =>
      have h1 : conforms t' (.obj kvs) = true := by simpa [conforms] using hc
      simpa [coerce] using coerce_id_of_conforms strict t' (.obj kvs) hw h1
    | orm attrs =>
      have h1 : conforms t' (.orm attrs) = true := by simpa [conforms] using hc
      simpa [coerce] using coerce_id_of_conforms strict t' (.orm attrs) hw h1
  | listOf t' =>
    cases v with
    | list xs =>
      simp only [STyWF] at hw
      have h1 : conformsList t' xs = true := by simpa [conforms] using hc
      have h2 := coerceList_id_of_conforms strict t' xs hw h1
      simp [coerce, h2]
    | null => simp [conforms] at hc
    | bool b => simp [conforms] at hc
    | num n => simp [conforms] at hc
    | str s => simp [conforms] at hc
    | obj kvs => simp [conforms] at hc
    | orm attrs => simp [conforms] at hc
  | schema fields =>
    cases v with
    | obj kvs =>
      simp only [STyWF] at hw
      have h1 : conformsFields fields kvs = true := by simpa [conforms] using hc
      have h2 := coerceFields_id_of_conforms strict fields kvs hw h1
      simp [coerce, h2]
    | null => simp [conforms] at hc
    | bool b => simp [conforms] at hc
    | num n => simp [conforms] at hc
    | str s => simp [conforms] at hc
    | list xs => simp [conforms] at hc
    | orm attrs => simp [conforms] at hc

theorem coerceList_id_of_conforms (strict : Bool) (t : STy) (xs : List Value)
    (hw : STyWF t = true) (hc : conformsList t xs = true) :
    coerceList strict t xs = .ok xs := by
  cases xs with
  | nil => simp [coerceList]
  | cons x rest =>
    simp only [conformsList, Bool.and_eq_true] at hc
    have h1 := coerce_id_of_conforms strict t x hw hc.1
    have h2 := coerceList_id_of_conforms strict t rest hw hc.2
    simp [coerceList, h1, h2]

theorem coerceFields_id_of_conforms (strict : Bool) (fields : List (String × STy))
    (kvs : List (String × Value))
    (hw : (decide ((fields.map Prod.fst).Nodup) && fieldsWF fields) = true)
    (hc : conformsFields fields kvs = true) :
    coerceFields strict fields kvs = .ok kvs := by
  cases fields with
  | nil =>
    cases kvs with
    | nil => simp [coerceFields]
    | cons k kr => simp [conformsFields] at hc
  | cons f fr =>
    cases f with
    | mk fn ft =>
      cases kvs with
      | nil => simp [conformsFields] at hc
      | cons k kr =>
        cases k with
        | mk kn kv =>
          rw [Bool.and_eq_true, decide_eq_true_eq] at hw
          obtain ⟨hnd, hfw⟩ := hw
          rw [List.map_cons, List.nodup_cons] at hnd
          simp only [fieldsWF, Bool.and_eq_true] at hfw
          simp only [conformsFields, Bool.and_eq_true, decide_eq_true_eq] at hc
          obtain ⟨⟨hkn, hcv⟩, hcr⟩ := hc
          subst hkn
          have h1 := coerce_id_of_conforms strict ft kv hfw.1 hcv
          have h2 : coerceFields strict fr ((kn, kv) :: kr) =
              coerceFields strict fr kr := by
            apply coerceFields_cons_ne
            intro p hp hpe
            have hmm : p.1 ∈ fr.map Prod.fst := List.mem_map_of_mem Prod.fst hp
            exact hnd.1 (hpe ▸ hmm)
          have h3 := coerceFields_id_of_conforms strict fr kr
            (by rw [Bool.and_eq_true, decide_eq_true_eq]; exact ⟨hnd.2, hfw.2⟩) hcr
          simp [coerceFields, lookupV, h1, h2, h3]

end

/-- C8: for a declared structured-record output type, a return value that is
already an instance of that type passes the ORM-bridging step unchanged and
output validation/coercion plus unwrapping reproduces it exactly — running
the conversion a second time changes nothing. -/
theorem c8_output_conversion_idempotent (fields : List (String × STy)) (v : Value)
    (hw : STyWF (.schema fields) = true)
    (hc : conforms (.schema fields) v = true) :
    outputConvert (.schema fields) v = .ok v
    ∧ (outputConvert (.schema fields) v).bind (outputConvert (.schema fields)) =
        .ok v := by
  have hid : coerce false (.schema fields) v = .ok v :=
    coerce_id_of_conforms false _ v hw hc
  have hobj : ∃ kvs, v = .obj kvs := by
    cases v with
    | obj kvs => exact ⟨kvs, rfl⟩
    | null => simp [conforms] at hc
    | bool b => simp [conforms] at hc
    | num n => simp [conforms] at hc
    | str s => simp [conforms] at hc
    | list xs => simp [conforms] at hc
    | orm attrs => simp [conforms] at hc
  obtain ⟨kvs, rfl⟩ := hobj
  have hout : outputConvert (.schema fields) (.obj kvs) = .ok (.obj kvs) := by
    have hconv : convert_from_orm (.obj kvs) (some (.schema fields)) =
        .ok (.obj kvs) := by
      simp [convert_from_orm]
    have hwrap : coerce false (.schema [("value", STy.schema fields)])
        (.obj [("value", .obj kvs)]) = .ok (.obj [("value", .obj kvs)]) := by
      simp [coerce, coerceFields, lookupV, hid]
    simp [outputConvert, hconv, hwrap]
  exact ⟨hout, by rw [hout]; exact hout⟩

/-- Witness for C8 at a concrete schema instance. -/
theorem c8_output_conversion_idempotent_witness :
    outputConvert (.schema [("title", STy.str), ("count", STy.int)])
      (.obj [("title", .str "T"), ("count", .num 3)]) =
      .ok (.obj [("title", .str "T"), ("count", .num 3)]) := by
  have h := c8_output_conversion_idempotent
    [("title", STy.str), ("count", STy.int)]
    (.obj [("title", .str "T"), ("count", .num 3)])
    (by simp only [STyWF, fieldsWF]; decide)
    (by simp [conforms, conformsFields])
  exact h.1

end Hatchway
